import Mathlib

/-!
Verification of the change-propagation core of the `super_sheldon_form`
repository (MongoDB → Google Sheets / Interakt sync).

The JavaScript sources are shallowly embedded as pure Lean functions:

* `fieldMap.js`   → `COLUMNS`, `docToRow`
* `realtimeSync.js` (`rowRangeA1`/`toCol`, `buildIndexFromSheet`, `withRetry`,
  `appendRow`, `updateRow`, `clearRow`, the change-stream handler in
  `watchChanges`, the snapshot bootstrap in `startSync`, `syncToInterakt`)
* the `part_000` variant's `syncToInterakt` (phone extraction, normalization
  and validation) and the `part_001` variant's stream handlers.

JavaScript values occurring in documents are modelled by `JsValue`; the
in-memory `Map` `idToRow` is modelled by an association list with JS `Map`
get/set/delete semantics; the Google Sheets sink is modelled as a list of
rows of display strings (row `n`, 1-based, is entry `n-1`), with the append
response's `updatedRange` string generated the way the Sheets API reports it
and parsed by the same regex scan the source applies to it.  Asynchronous
sink calls are modelled by their success-path state transitions; the retry
wrapper is modelled separately over an explicit per-attempt outcome function.
-/

/-- A JavaScript runtime value as it can occur in a synced document:
`null`, `undefined`, a string, an integer number, a boolean, a `Date`
(carrying its `toISOString()` form and its `String(...)` form), or a
composite object (carrying the result of its own `toString` method when it
has one, and its `JSON.stringify` serialization). -/
inductive JsValue where
  | null : JsValue
  | undef : JsValue
  | str : String → JsValue
  | num : Int → JsValue
  | bool : Bool → JsValue
  | date : String → String → JsValue
  | obj : Option String → String → JsValue
deriving DecidableEq

/-- A document is a finite map from field names to values. -/
abbrev Doc := List (String × JsValue)

/-- Field access `doc?.[key]`: the first binding of the key, or
`undefined` when the field is absent. -/
def docGet : Doc → String → JsValue
  | [], _ => .undef
  | (k', v) :: rest, k => if k' = k then v else docGet rest k

/-- JavaScript truthiness of a value. -/
def jsTruthy : JsValue → Bool
  | .null => false
  | .undef => false
  | .str s => s ≠ ""
  | .num n => n ≠ 0
  | .bool b => b
  | .date _ _ => true
  | .obj _ _ => true

/-- JavaScript `a || b`: `a` when truthy, otherwise `b`. -/
def jsOr (a b : JsValue) : JsValue := if jsTruthy a then a else b

/-- JavaScript `String(v)` conversion.  An object without its own `toString`
stringifies via `Object.prototype.toString` to `"[object Object]"`. -/
def jsToString : JsValue → String
  | .null => "null"
  | .undef => "undefined"
  | .str s => s
  | .num n => toString n
  | .bool b => if b then "true" else "false"
  | .date _ ds => ds
  | .obj ts _ => ts.getD "[object Object]"

/-- One column of the sheet schema: document key and display header
(`fieldMap.js`). -/
structure Column where
  key : String
  header : String
deriving DecidableEq

/-- The column schema `COLUMNS` from `fieldMap.js`. -/
def COLUMNS : List Column :=
  [⟨"_id", "ID"⟩, ⟨"fullName", "Name"⟩, ⟨"email", "Email"⟩,
   ⟨"mobile", "Phone"⟩, ⟨"createdAt", "Created At"⟩,
   ⟨"grade", "Grade"⟩, ⟨"subject", "Subject"⟩]

/-- The per-field encoding applied by `docToRow` in `fieldMap.js`:
`v == null` (null or undefined) gives the empty string, a `Date` gives its
ISO string, any other object gives `v.toString?.() ?? JSON.stringify(v)`,
and scalar values pass through unchanged. -/
def docFieldToCell : JsValue → JsValue
  | .null => .str ""
  | .undef => .str ""
  | .date iso _ => .str iso
  | .obj ts js => .str (ts.getD js)
  | .str s => .str s
  | .num n => .num n
  | .bool b => .bool b

/-- `docToRow` from `fieldMap.js`: one encoded cell per schema column,
in schema order. -/
def docToRow (doc : Doc) : List JsValue :=
  COLUMNS.map (fun c => docFieldToCell (docGet doc c.key))

/-- How the tabular sink stores/displays a RAW-written value when the sheet
is read back (strings unchanged, numbers and booleans rendered). -/
def cellOfValue : JsValue → String
  | .str s => s
  | .num n => toString n
  | .bool b => if b then "TRUE" else "FALSE"
  | .null => ""
  | .undef => ""
  | .date iso _ => iso
  | .obj ts js => ts.getD js

/-- The row of display strings a document occupies in the sheet after being
encoded by `docToRow` and written RAW. -/
def docToSheetRow (doc : Doc) : List String :=
  (docToRow doc).map cellOfValue

/-! ### The Row Index: JS `Map` semantics over an association list -/

/-- The `idToRow` map of `realtimeSync.js`. -/
abbrev IndexMap := List (String × Nat)

/-- `Map.prototype.get`. -/
def mapGet : IndexMap → String → Option Nat
  | [], _ => none
  | (k', v) :: rest, k => if k' = k then some v else mapGet rest k

/-- `Map.prototype.set`: replace the value of an existing key in place,
otherwise add the entry at the end. -/
def mapSet : IndexMap → String → Nat → IndexMap
  | [], k, v => [(k, v)]
  | (k', v') :: rest, k, v =>
    if k' = k then (k, v) :: rest else (k', v') :: mapSet rest k v

/-- `Map.prototype.delete`: remove the entry with the given key. -/
def mapDelete : IndexMap → String → IndexMap
  | [], _ => []
  | (k', v) :: rest, k =>
    if k' = k then mapDelete rest k else (k', v) :: mapDelete rest k

theorem mapGet_mapSet_self (m : IndexMap) (k : String) (v : Nat) :
    mapGet (mapSet m k v) k = some v := by
  induction m with
  | nil => simp [mapGet, mapSet]
  | cons p rest ih =>
    obtain ⟨k', v'⟩ := p
    by_cases h : k' = k <;> simp [mapGet, mapSet, h, ih]

theorem mapGet_mapSet_ne (m : IndexMap) (k k' : String) (v : Nat)
    (h : k' ≠ k) : mapGet (mapSet m k v) k' = mapGet m k' := by
  have hks : ¬ k = k' := fun hh => h hh.symm
  induction m with
  | nil => simp [mapGet, mapSet, hks]
  | cons p rest ih =>
    obtain ⟨ka, va⟩ := p
    by_cases hk : ka = k
    · subst hk
      simp [mapGet, mapSet, hks]
    · simp [mapGet, mapSet, hk, ih]

theorem mapGet_mapDelete_self (m : IndexMap) (k : String) :
    mapGet (mapDelete m k) k = none := by
  induction m with
  | nil => simp [mapGet, mapDelete]
  | cons p rest ih =>
    obtain ⟨k', v'⟩ := p
    by_cases h : k' = k <;> simp [mapGet, mapDelete, h, ih]

theorem mapGet_mapDelete_ne (m : IndexMap) (k k' : String) (h : k' ≠ k) :
    mapGet (mapDelete m k) k' = mapGet m k' := by
  induction m with
  | nil => simp [mapDelete]
  | cons p rest ih =>
    obtain ⟨ka, va⟩ := p
    by_cases hk : ka = k
    · subst hk
      have hks : ¬ ka = k' := fun hh => h hh.symm
      simp [mapGet, mapDelete, hks, ih]
    · simp [mapGet, mapDelete, hk, ih]

/-! ### Coordinate Translator: `toCol` inside `rowRangeA1` -/

/-- The body of the `while (n > 0)` loop of `toCol` in `rowRangeA1`
(`realtimeSync.js`), written with an explicit iteration bound: each pass
prepends the character `String.fromCharCode(65 + (n-1) % 26)` and continues
with `Math.floor((n-1) / 26)`.  The loop runs at most `n` times because its
variable strictly decreases, so a fuel of `n` never truncates it. -/
def toColGo : Nat → Nat → List Char → List Char
  | 0, _, s => s
  | _, 0, s => s
  | fuel + 1, m + 1, s => toColGo fuel (m / 26) (Char.ofNat (65 + m % 26) :: s)

/-- `toCol` from `rowRangeA1` in `realtimeSync.js`: the bijective base-26
column label of a 1-based column number. -/
def toCol (n : Nat) : String := String.mk (toColGo n n [])

/-- Recurrence form of the column-label loop, for reasoning. -/
def colChars : Nat → List Char
  | 0 => []
  | m + 1 => colChars (m / 26) ++ [Char.ofNat (65 + m % 26)]
termination_by n => n
decreasing_by exact Nat.lt_succ_of_le (Nat.div_le_self m 26)

theorem toColGo_eq_colChars (fuel : Nat) :
    ∀ n s, n ≤ fuel → toColGo fuel n s = colChars n ++ s := by
  induction fuel with
  | zero =>
    intro n s hn
    interval_cases n
    simp [toColGo, colChars]
  | succ f ih =>
    intro n s hn
    match n with
    | 0 => simp [toColGo, colChars]
    | m + 1 =>
      have hm : m / 26 ≤ f := le_trans (Nat.div_le_self m 26) (Nat.lt_succ_iff.mp hn)
      simp only [toColGo]
      rw [ih (m / 26) _ hm]
      have : colChars (m + 1) = colChars (m / 26) ++ [Char.ofNat (65 + m % 26)] := by
        simp [colChars]
      rw [this, List.append_assoc]
      simp

/-- Modelled from the spec: the Coordinate Translator's inverse
`columnIndex`, which the source does not implement; the spec (§4.2, §8)
defines it as the bijective base-26 decoder of a column label. -/
def columnIndex (s : String) : Nat :=
  s.data.foldl (fun a c => 26 * a + (c.toNat - 64)) 0

/-- The decoder applied to a raw character list. -/
def colVal (cs : List Char) : Nat :=
  cs.foldl (fun a c => 26 * a + (c.toNat - 64)) 0

theorem colVal_append_singleton (xs : List Char) (c : Char) :
    colVal (xs ++ [c]) = 26 * colVal xs + (c.toNat - 64) := by
  simp [colVal, List.foldl_append]

theorem toNat_ofNat_65 (r : Nat) (h : r < 26) :
    (Char.ofNat (65 + r)).toNat = 65 + r := by
  interval_cases r <;> decide

theorem colVal_colChars (n : Nat) : colVal (colChars n) = n := by
  induction n using Nat.strong_induction_on with
  | _ n ih =>
    match n with
    | 0 => simp [colChars, colVal]
    | m + 1 =>
      have hrec : colChars (m + 1) = colChars (m / 26) ++ [Char.ofNat (65 + m % 26)] := by
        simp [colChars]
      rw [hrec, colVal_append_singleton]
      rw [toNat_ofNat_65 (m % 26) (Nat.mod_lt m (by omega))]
      rcases Nat.eq_zero_or_pos (m / 26) with h0 | hpos
      · have hm : m < 26 := by
          by_contra hge
          push_neg at hge
          have := Nat.div_le_div_right (c := 26) hge
          simp [Nat.div_self] at this
          omega
        rw [h0]
        simp [colChars, colVal]
        have : m % 26 = m := Nat.mod_eq_of_lt hm
        omega
      · have hlt : m / 26 < m + 1 :=
          Nat.lt_succ_of_le (Nat.div_le_self m 26)
        rw [ih (m / 26) hlt]
        have := Nat.div_add_mod m 26
        omega

theorem colChars_mem_range (n : Nat) :
    ∀ c ∈ colChars n, 65 ≤ c.toNat ∧ c.toNat ≤ 90 := by
  induction n using Nat.strong_induction_on with
  | _ n ih =>
    match n with
    | 0 => simp [colChars]
    | m + 1 =>
      intro c hc
      have hrec : colChars (m + 1) = colChars (m / 26) ++ [Char.ofNat (65 + m % 26)] := by
        simp [colChars]
      rw [hrec, List.mem_append] at hc
      rcases hc with hc | hc
      · exact ih (m / 26) (Nat.lt_succ_of_le (Nat.div_le_self m 26)) c hc
      · have hm : m % 26 < 26 := Nat.mod_lt m (by omega)
        simp at hc
        subst hc
        rw [toNat_ofNat_65 (m % 26) hm]
        omega

/-! ### Retry Executor: `withRetry` -/

/-- `withRetry` from `realtimeSync.js`, run against an explicit sequence of
per-attempt outcomes (`op i` is the result of the `i`-th execution of the
wrapped operation: `some a` success, `none` a thrown error).  Returns the
overall result (`none` models resolving `undefined` after exhaustion — the
function never re-raises) together with the list of backoff waits, in
milliseconds, performed before each successive retry: on failure with
retries remaining it waits `delay`, then recurses with `retries - 1` and
`delay * 2`. -/
def withRetryRun (op : Nat → Option α) (_label : String) :
    Nat → Nat → Nat → Option α × List Nat
  | attempt, 0, _delay =>
    match op attempt with
    | some a => (some a, [])
    | none => (none, [])
  | attempt, r + 1, delay =>
    match op attempt with
    | some a => (some a, [])
    | none =>
      let p := withRetryRun op _label (attempt + 1) r (delay * 2)
      (p.1, delay :: p.2)

/-- Entry point: `withRetry(fn, label, retries, delay)` starts at attempt 0. -/
def withRetry (op : Nat → Option α) (label : String) (retries delay : Nat) :
    Option α × List Nat :=
  withRetryRun op label 0 retries delay

theorem withRetryRun_success_eq {α : Type} {op : Nat → Option α}
    {label : String} {a r d : Nat} {v : α} (hs : op a = some v) :
    withRetryRun op label a r d = (some v, []) := by
  match r with
  | 0 => simp [withRetryRun, hs]
  | r + 1 => simp [withRetryRun, hs]

theorem withRetryRun_fail_zero {α : Type} {op : Nat → Option α}
    {label : String} {a d : Nat} (h0 : op a = none) :
    withRetryRun op label a 0 d = (none, []) := by
  simp [withRetryRun, h0]

theorem withRetryRun_fail_succ {α : Type} {op : Nat → Option α}
    {label : String} {a r d : Nat} (h0 : op a = none) :
    withRetryRun op label a (r + 1) d =
      ((withRetryRun op label (a + 1) r (d * 2)).1,
        d :: (withRetryRun op label (a + 1) r (d * 2)).2) := by
  simp [withRetryRun, h0]

theorem doubling_shift (k d : Nat) :
    d :: (List.range k).map (fun i => 2 ^ i * (d * 2)) =
      (List.range (k + 1)).map (fun i => 2 ^ i * d) := by
  rw [List.range_succ_eq_map, List.map_cons, List.map_map]
  congr 1
  · simp
  · apply List.map_congr_left
    intro i _
    simp only [Function.comp_apply, pow_succ]
    ring

theorem withRetryRun_succeeds {α : Type} (op : Nat → Option α) (label : String)
    (k : Nat) (v : α) :
    ∀ a r d, (∀ i, i < k → op (a + i) = none) → op (a + k) = some v →
      k ≤ r →
      withRetryRun op label a r d =
        (some v, (List.range k).map (fun i => 2 ^ i * d)) := by
  induction k with
  | zero =>
    intro a r d _ hs _
    simp only [Nat.add_zero] at hs
    simp [withRetryRun_success_eq hs]
  | succ k ih =>
    intro a r d hf hs hk
    have h0 : op a = none := by simpa using hf 0 (Nat.succ_pos k)
    match r with
    | 0 => omega
    | r + 1 =>
      have hf' : ∀ i, i < k → op (a + 1 + i) = none := by
        intro i hi
        have := hf (i + 1) (by omega)
        simpa [Nat.add_comm, Nat.add_assoc, Nat.add_left_comm] using this
      have hs' : op (a + 1 + k) = some v := by
        have harr : a + 1 + k = a + (k + 1) := by omega
        rw [harr]; exact hs
      have hrec := ih (a + 1) r (d * 2) hf' hs' (by omega)
      rw [withRetryRun_fail_succ h0, hrec]
      simp only [Prod.mk.injEq, true_and]
      exact doubling_shift k d

theorem withRetryRun_exhausts {α : Type} (op : Nat → Option α) (label : String)
    (r : Nat) :
    ∀ a d, (∀ i, i ≤ r → op (a + i) = none) →
      withRetryRun op label a r d =
        (none, (List.range r).map (fun i => 2 ^ i * d)) := by
  induction r with
  | zero =>
    intro a d hf
    have h0 : op a = none := by simpa using hf 0 (le_refl 0)
    simp [withRetryRun_fail_zero h0]
  | succ r ih =>
    intro a d hf
    have h0 : op a = none := by simpa using hf 0 (by omega)
    have hf' : ∀ i, i ≤ r → op (a + 1 + i) = none := by
      intro i hi
      have := hf (i + 1) (by omega)
      simpa [Nat.add_comm, Nat.add_assoc, Nat.add_left_comm] using this
    rw [withRetryRun_fail_succ h0, ih (a + 1) (d * 2) hf']
    simp only [Prod.mk.injEq, true_and]
    exact doubling_shift r d

/-! ### The append response and its row-number parse

`appendRow` recovers the assigned row number by matching the regex
`/![A-Z]+(\d+):/` against the `updatedRange` of the Sheets append response
(a string such as `MongoSheet!A5:G5`) and applying `parseInt` to the
captured digits. -/

/-- Decimal digit characters of a natural number, as produced by the
external sink when printing a row number; the loop divides by 10 and is
bounded by `n + 1` iterations, so the fuel never truncates it. -/
def natDigitsGo : Nat → Nat → List Char → List Char
  | 0, _, acc => acc
  | fuel + 1, n, acc =>
    if n < 10 then Char.ofNat (48 + n) :: acc
    else natDigitsGo fuel (n / 10) (Char.ofNat (48 + n % 10) :: acc)

/-- The decimal representation of `n` as a character list. -/
def natDigits (n : Nat) : List Char := natDigitsGo (n + 1) n []

/-- Recurrence form of the decimal printer, for reasoning. -/
def digitsOf (n : Nat) : List Char :=
  if n < 10 then [Char.ofNat (48 + n)]
  else digitsOf (n / 10) ++ [Char.ofNat (48 + n % 10)]
termination_by n
decreasing_by exact Nat.div_lt_self (by omega) (by omega)

theorem natDigitsGo_eq_digitsOf (fuel : Nat) :
    ∀ n acc, n < fuel → natDigitsGo fuel n acc = digitsOf n ++ acc := by
  induction fuel with
  | zero => intro n acc hn; omega
  | succ f ih =>
    intro n acc hn
    by_cases h10 : n < 10
    · rw [digitsOf]
      simp [natDigitsGo, h10]
    · have hdiv : n / 10 < f := by
        have h1 : n / 10 < n := Nat.div_lt_self (by omega) (by omega)
        omega
      rw [digitsOf]
      simp only [natDigitsGo, h10, if_false]
      rw [ih (n / 10) _ hdiv, List.append_assoc]
      simp

theorem natDigits_eq_digitsOf (n : Nat) : natDigits n = digitsOf n := by
  have := natDigitsGo_eq_digitsOf (n + 1) n [] (Nat.lt_succ_self n)
  simpa [natDigits] using this

/-- `parseInt` on a captured digit string. -/
def digitsVal (cs : List Char) : Nat :=
  cs.foldl (fun a c => 10 * a + (c.toNat - 48)) 0

theorem toNat_ofNat_48 (r : Nat) (h : r < 10) :
    (Char.ofNat (48 + r)).toNat = 48 + r := by
  interval_cases r <;> decide

theorem digitsVal_append_singleton (xs : List Char) (c : Char) :
    digitsVal (xs ++ [c]) = 10 * digitsVal xs + (c.toNat - 48) := by
  simp [digitsVal, List.foldl_append]

theorem digitsVal_digitsOf (n : Nat) : digitsVal (digitsOf n) = n := by
  induction n using Nat.strong_induction_on with
  | _ n ih =>
    by_cases h10 : n < 10
    · rw [digitsOf]
      simp only [h10, if_true]
      simp [digitsVal, toNat_ofNat_48 n h10]
    · rw [digitsOf]
      simp only [h10, if_false]
      rw [digitsVal_append_singleton]
      rw [toNat_ofNat_48 (n % 10) (Nat.mod_lt n (by omega))]
      rw [ih (n / 10) (Nat.div_lt_self (by omega) (by omega))]
      have := Nat.div_add_mod n 10
      omega

theorem digitsOf_chars (n : Nat) :
    ∀ c ∈ digitsOf n, 48 ≤ c.toNat ∧ c.toNat ≤ 57 := by
  induction n using Nat.strong_induction_on with
  | _ n ih =>
    intro c hc
    by_cases h10 : n < 10
    · rw [digitsOf] at hc
      simp only [h10, if_true, List.mem_singleton] at hc
      subst hc
      rw [toNat_ofNat_48 n h10]
      omega
    · rw [digitsOf] at hc
      simp only [h10, if_false, List.mem_append, List.mem_singleton] at hc
      rcases hc with hc | hc
      · exact ih (n / 10) (Nat.div_lt_self (by omega) (by omega)) c hc
      · subst hc
        rw [toNat_ofNat_48 (n % 10) (Nat.mod_lt n (by omega))]
        omega

theorem digitsOf_ne_nil (n : Nat) : digitsOf n ≠ [] := by
  rw [digitsOf]
  by_cases h10 : n < 10 <;> simp [h10]

/-- The character class `[A-Z]` of the row-number regex. -/
def isUpperAZ (c : Char) : Bool := 65 ≤ c.toNat && c.toNat ≤ 90

/-- The character class `\d` of the row-number regex. -/
def isDigitC (c : Char) : Bool := 48 ≤ c.toNat && c.toNat ≤ 57

/-- One attempted match of `/![A-Z]+(\d+):/` at the current position:
a literal `!`, then one or more capital letters, then the captured digit
group, then a literal `:`; the captured digits go through `parseInt`. -/
def tryMatchAt : List Char → Option Nat
  | [] => none
  | c :: rest =>
    if c = '!' then
      let letters := rest.takeWhile isUpperAZ
      if letters = [] then none
      else
        let afterLetters := rest.dropWhile isUpperAZ
        let digits := afterLetters.takeWhile isDigitC
        if digits = [] then none
        else
          match afterLetters.dropWhile isDigitC with
          | ':' :: _ => some (digitsVal digits)
          | _ => none
    else none

/-- The regex scan: the first position at which the pattern matches wins,
as with `String.prototype.match`. -/
def scanRow : List Char → Option Nat
  | [] => none
  | c :: rest =>
    match tryMatchAt (c :: rest) with
    | some n => some n
    | none => scanRow rest

/-- `appendRow`'s recovery of the assigned row number from the response's
`updatedRange` string: the regex match followed by `parseInt` of the
captured group (`realtimeSync.js`). -/
def parseRowFromRange (s : String) : Option Nat := scanRow s.data

/-- The configured sheet name (`SHEET_NAME` defaults to `MongoSheet`). -/
def SHEET_NAME : String := "MongoSheet"

/-- The `updatedRange` the tabular sink reports for an append that landed
on row `rowNumber` of a sheet with `width` columns, e.g. `MongoSheet!A5:G5`. -/
def appendResponseRange (sheetName : String) (rowNumber width : Nat) : String :=
  sheetName ++ "!A" ++ String.mk (natDigits rowNumber) ++ ":" ++
    toCol width ++ String.mk (natDigits rowNumber)

theorem takeWhile_append_all (p : Char → Bool) (l1 l2 : List Char)
    (h : ∀ c ∈ l1, p c = true) :
    (l1 ++ l2).takeWhile p = l1 ++ l2.takeWhile p := by
  induction l1 with
  | nil => simp
  | cons a l ih =>
    have ha : p a = true := h a (by simp)
    have hrest : ∀ c ∈ l, p c = true := fun c hc => h c (by simp [hc])
    simp [List.takeWhile_cons, ha, ih hrest]

theorem dropWhile_append_all (p : Char → Bool) (l1 l2 : List Char)
    (h : ∀ c ∈ l1, p c = true) :
    (l1 ++ l2).dropWhile p = l2.dropWhile p := by
  induction l1 with
  | nil => simp
  | cons a l ih =>
    have ha : p a = true := h a (by simp)
    have hrest : ∀ c ∈ l, p c = true := fun c hc => h c (by simp [hc])
    simp [List.dropWhile_cons, ha, ih hrest]

theorem scanRow_cons_not_bang (c : Char) (rest : List Char) (h : ¬ c = '!') :
    scanRow (c :: rest) = scanRow rest := by
  simp [scanRow, tryMatchAt, h]

theorem digitsOf_not_upper (n : Nat) : ∀ c ∈ digitsOf n, isUpperAZ c = false := by
  intro c hc
  have := digitsOf_chars n c hc
  simp [isUpperAZ]
  omega

theorem digitsOf_all_digitC (n : Nat) : ∀ c ∈ digitsOf n, isDigitC c = true := by
  intro c hc
  have := digitsOf_chars n c hc
  simp [isDigitC]
  omega

theorem scanRow_at_match (n : Nat) (rem : List Char) :
    scanRow ('!' :: 'A' :: (digitsOf n ++ ':' :: rem)) = some n := by
  obtain ⟨d, D, hD⟩ : ∃ d D, digitsOf n = d :: D := by
    match hd : digitsOf n with
    | [] => exact absurd hd (digitsOf_ne_nil n)
    | d :: D => exact ⟨d, D, rfl⟩
  have hdmem : d ∈ digitsOf n := by rw [hD]; simp
  have hdU : isUpperAZ d = false := digitsOf_not_upper n d hdmem
  have hAU : isUpperAZ 'A' = true := by decide
  have hcolon : isDigitC ':' = false := by decide
  have h1 : ('A' :: (digitsOf n ++ ':' :: rem)).takeWhile isUpperAZ = ['A'] := by
    rw [hD]
    simp [List.takeWhile_cons, hAU, hdU]
  have h2 : ('A' :: (digitsOf n ++ ':' :: rem)).dropWhile isUpperAZ =
      digitsOf n ++ ':' :: rem := by
    rw [hD]
    simp [List.dropWhile_cons, hAU, hdU]
  have h3 : (digitsOf n ++ ':' :: rem).takeWhile isDigitC = digitsOf n := by
    rw [takeWhile_append_all isDigitC _ _ (digitsOf_all_digitC n)]
    simp [List.takeWhile_cons, hcolon]
  have h4 : (digitsOf n ++ ':' :: rem).dropWhile isDigitC = ':' :: rem := by
    rw [dropWhile_append_all isDigitC _ _ (digitsOf_all_digitC n)]
    simp [List.dropWhile_cons, hcolon]
  have hmatch : tryMatchAt ('!' :: 'A' :: (digitsOf n ++ ':' :: rem)) = some n := by
    simp only [tryMatchAt, if_pos rfl, h1, h2, h3, h4]
    simp [digitsOf_ne_nil n, digitsVal_digitsOf n]
  simp [scanRow, hmatch]

theorem parse_appendResponseRange (n w : Nat) :
    parseRowFromRange (appendResponseRange SHEET_NAME n w) = some n := by
  have hdata : (appendResponseRange SHEET_NAME n w).data =
      'M' :: 'o' :: 'n' :: 'g' :: 'o' :: 'S' :: 'h' :: 'e' :: 'e' :: 't' ::
        '!' :: 'A' :: (digitsOf n ++ ':' :: ((toCol w).data ++ digitsOf n)) := by
    simp [appendResponseRange, SHEET_NAME, natDigits_eq_digitsOf]
  rw [parseRowFromRange, hdata]
  rw [scanRow_cons_not_bang _ _ (by decide)]
  rw [scanRow_cons_not_bang _ _ (by decide)]
  rw [scanRow_cons_not_bang _ _ (by decide)]
  rw [scanRow_cons_not_bang _ _ (by decide)]
  rw [scanRow_cons_not_bang _ _ (by decide)]
  rw [scanRow_cons_not_bang _ _ (by decide)]
  rw [scanRow_cons_not_bang _ _ (by decide)]
  rw [scanRow_cons_not_bang _ _ (by decide)]
  rw [scanRow_cons_not_bang _ _ (by decide)]
  rw [scanRow_cons_not_bang _ _ (by decide)]
  exact scanRow_at_match n _

/-! ### Tabular sink state and the Google Sheets CRUD of `realtimeSync.js`

The sheet is a list of rows of display strings; 1-based row `n` is entry
`n - 1`.  Each CRUD function below is the success-path state transition of
the corresponding `async` function (a sink call whose retries all fail
leaves the state unchanged and is covered by the Retry Executor model). -/

/-- The mutable state of the pipeline: the sheet contents and the
`idToRow` Row Index. -/
structure SyncState where
  sheet : List (List String)
  idToRow : IndexMap
deriving DecidableEq

/-- A blanked row, as left behind by `values.clear` over the row's range. -/
def blankRow : List String := List.replicate COLUMNS.length ""

/-- `appendRow(doc)`: encode the document, append it as the next row, then
recover the assigned row number from the response's `updatedRange` via the
regex, and — only when a truthy row number was parsed — record
`idToRow.set(String(doc._id), rowNumber)`. -/
def appendRowOp (st : SyncState) (doc : Doc) : SyncState :=
  let sheet := st.sheet ++ [docToSheetRow doc]
  let rowNumber := sheet.length
  match parseRowFromRange (appendResponseRange SHEET_NAME rowNumber COLUMNS.length) with
  | some m =>
    if m ≠ 0 then
      { sheet := sheet, idToRow := mapSet st.idToRow (jsToString (docGet doc "_id")) m }
    else { sheet := sheet, idToRow := st.idToRow }
  | none => { sheet := sheet, idToRow := st.idToRow }

/-- `updateRow(rowNumber, doc)`: overwrite exactly the range
`A{rowNumber}:{toCol(COLUMNS.length)}{rowNumber}` with the encoded row;
the index is untouched. -/
def updateRowOp (st : SyncState) (rowNumber : Nat) (doc : Doc) : SyncState :=
  { st with sheet := st.sheet.set (rowNumber - 1) (docToSheetRow doc) }

/-- `clearRow(rowNumber)`: blank exactly that row's range. -/
def clearRowOp (st : SyncState) (rowNumber : Nat) : SyncState :=
  { st with sheet := st.sheet.set (rowNumber - 1) blankRow }

/-- The event types of the change stream. -/
inductive OpType where
  | insert : OpType
  | update : OpType
  | replace : OpType
  | delete : OpType
deriving DecidableEq

/-- A change event: operation type, `documentKey._id`, and the full
document (ignored by the delete branch). -/
structure ChangeEvent where
  operationType : OpType
  documentKeyId : JsValue
  fullDocument : Doc
deriving DecidableEq

/-- JS truthiness of `idToRow.get(id)`: `undefined` and `0` are falsy. -/
def truthyRow : Option Nat → Option Nat
  | some n => if n = 0 then none else some n
  | none => none

/-- The update/replace branch of the change handler: update in place when
the id is indexed (truthy row number), otherwise fall back to an append. -/
def handleUpsert (st : SyncState) (id : String) (doc : Doc) : SyncState :=
  match truthyRow (mapGet st.idToRow id) with
  | some r => updateRowOp st r doc
  | none => appendRowOp st doc

/-- The `stream.on('change')` handler of `watchChanges` in
`realtimeSync.js`: `id = String(change.documentKey._id)`; insert appends;
update/replace updates in place or falls back to append; delete clears the
row and removes the index entry when the id is indexed, and otherwise does
nothing. -/
def handleChange (st : SyncState) (ev : ChangeEvent) : SyncState :=
  let id := jsToString ev.documentKeyId
  match ev.operationType with
  | .insert => appendRowOp st ev.fullDocument
  | .update => handleUpsert st id ev.fullDocument
  | .replace => handleUpsert st id ev.fullDocument
  | .delete =>
    match truthyRow (mapGet st.idToRow id) with
    | some r =>
      { sheet := (clearRowOp st r).sheet, idToRow := mapDelete st.idToRow id }
    | none => st

/-! ### `buildIndexFromSheet` -/

/-- `COLUMNS.findIndex((c) => c.key === '_id')`. -/
def idCol : Nat := COLUMNS.findIdx (fun c => c.key == "_id")

/-- The identifier cell of a data row: `row[idCol] ?? ''`. -/
def idCellOfRow (row : List String) : String := (row.get? idCol).getD ""

/-- The scan loop of `buildIndexFromSheet`: `rowNum` starts at 2 and is
incremented for every scanned row; a row with a truthy (non-blank)
identifier cell is recorded, a blank one is skipped but still consumes its
row number. -/
def buildIndexAux : List (List String) → Nat → IndexMap → IndexMap
  | [], _, m => m
  | row :: rest, rowNum, m =>
    let idCell := idCellOfRow row
    buildIndexAux rest (rowNum + 1) (if idCell ≠ "" then mapSet m idCell rowNum else m)

/-- `buildIndexFromSheet` from `realtimeSync.js`: read all data rows (from
row 2 onward), clear `idToRow` (the prior map contributes nothing), then
populate it in scan order. -/
def buildIndexFromSheet (_prior : IndexMap) (dataRows : List (List String)) : IndexMap :=
  buildIndexAux dataRows 2 []

/-- The index (0-based, counting every scanned row) of the last data row
whose identifier cell equals `k`. -/
def findLastIdx : List String → String → Option Nat
  | [], _ => none
  | c :: rest, k =>
    match findLastIdx rest k with
    | some i => some (i + 1)
    | none => if c = k then some 0 else none

theorem buildIndexAux_get (rows : List (List String)) :
    ∀ (rowNum : Nat) (m : IndexMap) (k : String), k ≠ "" →
      mapGet (buildIndexAux rows rowNum m) k =
        match findLastIdx (rows.map idCellOfRow) k with
        | some i => some (rowNum + i)
        | none => mapGet m k := by
  induction rows with
  | nil => intro rowNum m k _; simp [buildIndexAux, findLastIdx]
  | cons row rest ih =>
    intro rowNum m k hk
    simp only [buildIndexAux, List.map_cons, findLastIdx]
    rw [ih (rowNum + 1) _ k hk]
    match hfind : findLastIdx (rest.map idCellOfRow) k with
    | some i =>
      simp only []
      have : rowNum + 1 + i = rowNum + (i + 1) := by omega
      rw [this]
    | none =>
      simp only []
      by_cases hcell : idCellOfRow row = k
      · rw [hcell]
        simp [hk, mapGet_mapSet_self]
      · have hkc : k ≠ idCellOfRow row := fun hh => hcell hh.symm
        by_cases hblank : idCellOfRow row = ""
        · rw [hblank]
          have hek : ¬ ("" : String) = k := fun hh => hk hh.symm
          simp [hek]
        · simp [hblank, hcell, mapGet_mapSet_ne _ _ _ _ hkc]

theorem buildIndexAux_get_blank (rows : List (List String)) :
    ∀ (rowNum : Nat) (m : IndexMap),
      mapGet (buildIndexAux rows rowNum m) "" = mapGet m "" := by
  induction rows with
  | nil => intro rowNum m; simp [buildIndexAux]
  | cons row rest ih =>
    intro rowNum m
    simp only [buildIndexAux]
    rw [ih]
    by_cases hblank : idCellOfRow row = ""
    · simp [hblank]
    · simp [hblank, mapGet_mapSet_ne _ _ _ _ (Ne.symm hblank)]

theorem findLastIdx_not_mem (ids : List String) (k : String)
    (h : k ∉ ids) : findLastIdx ids k = none := by
  induction ids with
  | nil => simp [findLastIdx]
  | cons c rest ih =>
    have hc : ¬ c = k := fun hh => h (by simp [hh])
    have hrest : k ∉ rest := fun hh => h (by simp [hh])
    simp [findLastIdx, ih hrest, hc]

theorem findLastIdx_of_nodup (ids : List String) (k : String) :
    ∀ i, ids.Nodup → i < ids.length → ids.get? i = some k →
      findLastIdx ids k = some i := by
  induction ids with
  | nil => intro i _ hi _; simp at hi
  | cons c rest ih =>
    intro i hnodup hi hget
    match i with
    | 0 =>
      simp at hget
      subst hget
      have hnot : c ∉ rest := (List.nodup_cons.mp hnodup).1
      simp [findLastIdx, findLastIdx_not_mem rest c hnot]
    | i + 1 =>
      simp at hget hi
      have := ih i (List.nodup_cons.mp hnodup).2 hi (by simpa using hget)
      simp [findLastIdx, this]

/-! ### Snapshot bootstrap: the full-export path of `startSync` -/

/-- The header row. -/
def headerRow : List String := COLUMNS.map (fun c => c.header)

/-- The full-mode bootstrap of `startSync` in `realtimeSync.js`: read all
documents, bulk-clear `A:ZZ` (discarding whatever was in the sheet), write
`[header, ...rows]` at `A1`, then rebuild the Row Index from the data rows
the sheet now holds (row 2 onward). -/
def bootstrap (prior : SyncState) (docs : List Doc) : SyncState :=
  let values := headerRow :: docs.map docToSheetRow
  { sheet := values, idToRow := buildIndexFromSheet prior.idToRow (values.drop 1) }

/-! ### Transport-failure handlers -/

/-- What a registered stream-failure handler does (besides logging). -/
inductive Remediation where
  | scheduleRestart : Nat → Remediation
  | exitProcess : Nat → Remediation
deriving DecidableEq

/-- The handlers a change-stream consumer registers for the two
transport-level terminal conditions; `none` means no handler is registered
for that condition. -/
structure StreamHandlers where
  onError : Remediation
  onClose : Option Remediation
deriving DecidableEq

/-- The handlers registered by `watchChanges` in `realtimeSync.js`:
`stream.on('error', ...)` and `stream.on('close', ...)` both do
`setTimeout(startSync, 10000)`. -/
def watchChangesHandlers : StreamHandlers :=
  { onError := .scheduleRestart 10000, onClose := some (.scheduleRestart 10000) }

/-- The handlers registered by the `src/unnamed/part_001` variant:
`stream.on('error', ...)` calls `process.exit(1)`, and no `close` handler
is registered at all. -/
def part001Handlers : StreamHandlers :=
  { onError := .exitProcess 1, onClose := none }

/-! ### Profile sink (Interakt) push -/

/-- A create-or-update call against the CRM sink, as assembled by a
`syncToInterakt` variant: whether the HTTP call is routed through
`withRetry`, the `phoneNumber` field of the payload when the payload has
one, the `userId` field when present, the trait bag, and the tags. -/
structure InteraktCall where
  viaRetry : Bool
  phoneNumber : Option String
  userId : Option String
  traits : Doc
  tags : List JsValue
deriving DecidableEq

/-- `syncToInterakt(recordData)` of the active `realtimeSync.js`
(lines 91–114): the payload is `{ traits: {...recordData},
add_to_sales_cycle, lead_status_crm, tags: [recordData.tableName ||
'GoogleSheet'] }` — it carries no `phoneNumber` and no `userId`, performs
no phone normalization or validation, is posted directly by `axios` inside
a bare try/catch (not through `withRetry`), and is sent for every record. -/
def mainSyncToInterakt (recordData : Doc) : Option InteraktCall :=
  some { viaRetry := false
       , phoneNumber := none
       , userId := none
       , traits := recordData
       , tags := [jsOr (docGet recordData "tableName") (.str "GoogleSheet")] }

/-- The phone-number extraction chain of the `part_000` variant's
`syncToInterakt`. -/
def part000PhoneRaw (r : Doc) : JsValue :=
  jsOr (docGet r "phoneNumber")
    (jsOr (docGet r "Student Contact Number")
      (jsOr (docGet r "contactNumber")
        (jsOr (docGet r "phone")
          (jsOr (docGet r "mobile")
            (jsOr (docGet r "studentContactNumber")
              (docGet r "Phone Number"))))))

/-- `String(phoneNumber).replace(/[^\d+]/g, '')`: keep digits and plus. -/
def cleanPhone (s : String) : String :=
  String.mk (s.data.filter (fun c => isDigitC c || c = '+'))

/-- `phoneNumber.replace(/\D/g, '').length`: the number of digit characters. -/
def digitCount (s : String) : Nat := (s.data.filter isDigitC).length

/-- JS `s.startsWith('+')` for the one-character prefix used here. -/
def headIsPlus (s : String) : Bool :=
  match s.data with
  | c :: _ => c = '+'
  | [] => false

/-- `syncToInterakt(recordData, source)` of the `src/unnamed/part_000`
variant (lines 92–159), as the call it emits (`none` = skipped / nothing
sent): extract a phone from several candidate fields (skip when all are
falsy), strip every character but digits and `+`, prefix the country code
(`recordData.countryCode || recordData['Country Code'] || '+91'`, itself
`+`-prefixed when needed) when the cleaned number does not start with `+`
(a non-string country code makes `countryCode.startsWith` throw, which the
surrounding try/catch turns into a skip), skip when the result has fewer
than 10 digit characters, and otherwise post — directly, via `axios` in a
try/catch, not through `withRetry` — a payload carrying `userId`,
`phoneNumber`, the full trait bag (with `phoneNumber` and `source`
overridden) and a source-dependent tag.  `fallbackId` stands for the
source-name-plus-timestamp default userId the code builds with
`Date.now()`. -/
def part000SyncToInterakt (r : Doc) (source : String) (fallbackId : String) :
    Option InteraktCall :=
  let praw := part000PhoneRaw r
  if jsTruthy praw = false then none
  else
    let p1 := cleanPhone (jsToString praw)
    let pfinal? : Option String :=
      if headIsPlus p1 then some p1
      else
        match jsOr (docGet r "countryCode")
                (jsOr (docGet r "Country Code") (.str "+91")) with
        | .str cc =>
          let cc' := if headIsPlus cc then cc else "+" ++ cc
          some (cc' ++ p1)
        | _ => none
    match pfinal? with
    | none => none
    | some phone =>
      if digitCount phone < 10 then none
      else
        let tag := if source = "Airtable" then "Demo Booking Form" else "Leads"
        some { viaRetry := false
             , phoneNumber := some phone
             , userId := some (jsToString (jsOr (docGet r "_id")
                 (jsOr (docGet r "recordId") (.str fallbackId))))
             , traits := ("phoneNumber", .str phone) :: ("source", .str source) :: r
             , tags := [.str tag] }

/-! ## Claim theorems -/

theorem toCol_data_eq_colChars (n : Nat) : (toCol n).data = colChars n := by
  show (String.mk (toColGo n n [])).data = colChars n
  rw [toColGo_eq_colChars n n [] (le_refl n)]
  simp

/-- Claim C3: the column-labelling function used by the Coordinate
Translator implements bijective base-26 numbering: for every `n ≥ 1`,
decoding the label of `n` yields `n` back (`columnIndex (toCol n) = n`),
with the concrete values `1 → "A"`, `26 → "Z"`, `27 → "AA"`, `702 → "ZZ"`,
and there is no zero digit — every label character lies in `A`–`Z`, and in
particular column 26 is `"Z"`, not `"0A"`. -/
theorem claim_c3_column_roundtrip (n : Nat) (h : 1 ≤ n) :
    columnIndex (toCol n) = n ∧
    (∀ c ∈ (toCol n).data, 65 ≤ c.toNat ∧ c.toNat ≤ 90) ∧
    toCol 1 = "A" ∧ toCol 26 = "Z" ∧ toCol 27 = "AA" ∧ toCol 702 = "ZZ" ∧
    toCol 26 ≠ "0A" := by
  refine ⟨?_, ?_, by decide, by decide, by decide, by decide, by decide⟩
  · have hc : columnIndex (toCol n) = colVal (toCol n).data := rfl
    rw [hc, toCol_data_eq_colChars, colVal_colChars]
  · rw [toCol_data_eq_colChars]
    exact colChars_mem_range n

/-- Witness for C3 at `n = 3`. -/
theorem claim_c3_witness : columnIndex (toCol 3) = 3 :=
  (claim_c3_column_roundtrip 3 (by norm_num)).1

/-- Claim C4: for every operation, label, retry budget and initial delay,
the Retry Executor satisfies: an operation failing `k` times and then
succeeding (`k < maxRetries`) makes the call return the operation's success
result; an operation failing on every attempt up to `maxRetries` makes the
call return normally (with no result — never an exception); and in both
cases the wait before each successive retry is double the previous wait:
`initialDelay, 2·initialDelay, 4·initialDelay, …`. -/
theorem claim_c4_retry_executor {α : Type} (op : Nat → Option α)
    (label : String) (maxRetries initialDelay : Nat) :
    (∀ (k : Nat) (v : α), (∀ i, i < k → op i = none) → op k = some v →
       k < maxRetries →
       withRetry op label maxRetries initialDelay =
         (some v, (List.range k).map (fun i => 2 ^ i * initialDelay))) ∧
    ((∀ i, i ≤ maxRetries → op i = none) →
       withRetry op label maxRetries initialDelay =
         (none, (List.range maxRetries).map (fun i => 2 ^ i * initialDelay))) := by
  constructor
  · intro k v hf hs hk
    have hf0 : ∀ i, i < k → op (0 + i) = none := by
      intro i hi
      simpa using hf i hi
    have hs0 : op (0 + k) = some v := by simpa using hs
    exact withRetryRun_succeeds op label k v 0 maxRetries initialDelay hf0 hs0
      (le_of_lt hk)
  · intro hf
    have hf0 : ∀ i, i ≤ maxRetries → op (0 + i) = none := by
      intro i hi
      simpa using hf i hi
    exact withRetryRun_exhausts op label maxRetries 0 initialDelay hf0

/-- An operation that fails twice, then succeeds. -/
def exOp : Nat → Option Nat := fun i => if i < 2 then none else some 42

/-- Witness for C4: `exOp` under the source's default budget (3 retries,
1000 ms initial delay) returns the success result after waits of 1000 ms
and 2000 ms. -/
theorem claim_c4_witness : withRetry exOp "appendRow" 3 1000 = (some 42, [1000, 2000]) := by
  have hf : ∀ i, i < 2 → exOp i = none := by
    intro i hi
    interval_cases i <;> rfl
  have h := (claim_c4_retry_executor exOp "appendRow" 3 1000).1 2 42 hf rfl
    (by norm_num)
  rw [h]
  decide

/-- Claim C5: for every document, the Row Codec produces one output value
per schema column in schema order; at each position the cell is determined
by the document field at that column's key: absent or null yields the empty
string (never an error), a `Date` yields its ISO-8601 string, a composite
object yields its `toString` representation with its JSON serialization as
fallback, and scalars pass through.  The function is pure and total by
construction. -/
theorem claim_c5_row_codec (doc : Doc) (j : Nat) (hj : j < COLUMNS.length) :
    (docToRow doc).length = COLUMNS.length ∧
    ∃ cell, (docToRow doc).get? j = some cell ∧
      ((docGet doc (COLUMNS.get ⟨j, hj⟩).key = .null ∨
        docGet doc (COLUMNS.get ⟨j, hj⟩).key = .undef) → cell = .str "") ∧
      (∀ iso ds, docGet doc (COLUMNS.get ⟨j, hj⟩).key = .date iso ds →
        cell = .str iso) ∧
      (∀ ts js, docGet doc (COLUMNS.get ⟨j, hj⟩).key = .obj ts js →
        cell = .str (ts.getD js)) ∧
      (∀ s, docGet doc (COLUMNS.get ⟨j, hj⟩).key = .str s → cell = .str s) ∧
      (∀ m, docGet doc (COLUMNS.get ⟨j, hj⟩).key = .num m → cell = .num m) ∧
      (∀ b, docGet doc (COLUMNS.get ⟨j, hj⟩).key = .bool b → cell = .bool b) := by
  constructor
  · simp [docToRow]
  · refine ⟨docFieldToCell (docGet doc (COLUMNS.get ⟨j, hj⟩).key), ?_, ?_, ?_, ?_, ?_, ?_, ?_⟩
    · rw [docToRow, List.get?_map, List.get?_eq_get hj]
      rfl
    all_goals
      rcases hV : docGet doc (COLUMNS.get ⟨j, hj⟩).key with _ | _ | s | m | b | ⟨iso, ds⟩ | ⟨ts, js⟩ <;>
        simp [docFieldToCell]

/-- A sample document for witnesses. -/
def exDoc : Doc :=
  [("_id", JsValue.str "abc123"), ("fullName", JsValue.str "Jane"),
   ("mobile", JsValue.str "9876543210")]

/-- Witness for C5 at `exDoc`, column 0. -/
theorem claim_c5_witness : (docToRow exDoc).length = COLUMNS.length :=
  (claim_c5_row_codec exDoc 0 (by norm_num [COLUMNS])).1

/-- `buildIndexFromSheet` of the `src/unnamed/part_001` variant
(lines 49–63): the identical scan (`rowNum` starting at 2, a blank
identifier cell skipped but consuming its row number), but this variant
never calls `idToRow.clear()` — the scan populates into whatever the map
already holds, so a prior entry whose id is not rescanned survives the
rebuild. -/
def part001BuildIndexFromSheet (prior : IndexMap)
    (dataRows : List (List String)) : IndexMap :=
  buildIndexAux dataRows 2 prior

/-- Sample data rows: row 2 has id `a`, row 3 a blank id cell (skipped but
consuming its row number), row 4 id `b`. -/
def exRows : List (List String) :=
  [["a", "x"], ["", "y"], ["b", "z"]]

/-- Counterexample to claim C6 as stated: the claim's cited
`src/unnamed/part_001` variant of `buildIndexFromSheet` does not first
clear the map, so rebuilding over `exRows` (which contains no row for the
id `stale`) keeps the stale prior entry `stale → 9` — the rebuilt map does
not contain only the scanned ids and differs from the map the clearing
`realtimeSync.js` rebuild produces. -/
theorem claim_c6_counterexample :
    mapGet (part001BuildIndexFromSheet [("stale", 9)] exRows) "stale" = some 9 ∧
    part001BuildIndexFromSheet [("stale", 9)] exRows ≠
      buildIndexFromSheet [("stale", 9)] exRows := by decide

/-- Claim C6 as amended: in `realtimeSync.js`, rebuilding the Row Index
first clears the map — the result is the same for every prior map — and
then populates it in scan order from row 2 onward: a non-blank identifier
cell taken from the schema's id column maps to `2 + its scan position`,
later occurrences overriding earlier ones, rows with a blank identifier
cell are never indexed but still consume their row number, and nothing
else is in the map.  The `src/unnamed/part_001` variant runs the same scan
without the initial clear: scanned ids are assigned identically, but for
an id absent from the sheet the map keeps whatever the prior map held —
entries from before the rebuild survive. -/
theorem claim_c6_amended (prior : IndexMap) (rows : List (List String))
    (k : String) :
    (k ≠ "" → mapGet (buildIndexFromSheet prior rows) k =
       (findLastIdx (rows.map idCellOfRow) k).map (fun i => i + 2)) ∧
    mapGet (buildIndexFromSheet prior rows) "" = none ∧
    (∀ prior2, buildIndexFromSheet prior2 rows = buildIndexFromSheet prior rows) ∧
    (k ≠ "" → mapGet (part001BuildIndexFromSheet prior rows) k =
       (match findLastIdx (rows.map idCellOfRow) k with
        | some i => some (i + 2)
        | none => mapGet prior k)) := by
  refine ⟨?_, ?_, fun prior2 => rfl, ?_⟩
  · intro hk
    rw [buildIndexFromSheet, buildIndexAux_get rows 2 [] k hk]
    match hfind : findLastIdx (rows.map idCellOfRow) k with
    | some i =>
      simp [Nat.add_comm]
    | none => simp [mapGet]
  · rw [buildIndexFromSheet, buildIndexAux_get_blank rows 2 []]
    rfl
  · intro hk
    rw [part001BuildIndexFromSheet, buildIndexAux_get rows 2 prior k hk]
    match hfind : findLastIdx (rows.map idCellOfRow) k with
    | some i => simp [Nat.add_comm]
    | none => rfl

/-- Witness for the amended C6: after a clearing rebuild over `exRows`,
`b` maps to row 4. -/
theorem claim_c6_witness : mapGet (buildIndexFromSheet [] exRows) "b" = some 4 := by
  have h := (claim_c6_amended [] exRows "b").1 (by decide)
  rw [h]
  decide

/-- The identifier cell an entity occupies in the sheet: the id-column cell
of its encoded row. -/
def entityIdCell (d : Doc) : String := idCellOfRow (docToSheetRow d)

theorem entityIdCell_eq (d : Doc) :
    entityIdCell d = cellOfValue (docFieldToCell (docGet d "_id")) := by
  have hidc : idCol = 0 := rfl
  simp [entityIdCell, idCellOfRow, hidc, docToSheetRow, docToRow, COLUMNS]

/-- Claim C2: after a snapshot bootstrap over a store with `N` entities
whose identifier cells are non-blank and pairwise distinct, and any prior
state: the sheet holds exactly `N + 1` rows — the header labels in row 1
and the entities' encoded rows in rows 2 through `N + 1` in store-iteration
order; the result is independent of every prior sheet and index content;
and the Row Index maps each entity's identifier to the row holding its
data (entity `i`, 0-based, is at row `i + 2`). -/
theorem claim_c2_bootstrap (prior : SyncState) (docs : List Doc)
    (hne : ∀ d ∈ docs, entityIdCell d ≠ "")
    (hnodup : (docs.map entityIdCell).Nodup) :
    (bootstrap prior docs).sheet.length = docs.length + 1 ∧
    (bootstrap prior docs).sheet.get? 0 = some headerRow ∧
    (∀ i (hi : i < docs.length),
       (bootstrap prior docs).sheet.get? (i + 1) =
         some (docToSheetRow (docs.get ⟨i, hi⟩))) ∧
    (∀ i (hi : i < docs.length),
       mapGet (bootstrap prior docs).idToRow (entityIdCell (docs.get ⟨i, hi⟩)) =
         some (i + 2)) ∧
    (∀ prior2, bootstrap prior2 docs = bootstrap prior docs) := by
  refine ⟨by simp [bootstrap], rfl, ?_, ?_, fun prior2 => rfl⟩
  · intro i hi
    show (docs.map docToSheetRow).get? i = _
    rw [List.get?_map, List.get?_eq_get hi]
    rfl
  · intro i hi
    have hids : (docs.map docToSheetRow).map idCellOfRow = docs.map entityIdCell := by
      rw [List.map_map]
      rfl
    have hsheet : (bootstrap prior docs).idToRow =
        buildIndexFromSheet prior.idToRow (docs.map docToSheetRow) := rfl
    have hk : entityIdCell (docs.get ⟨i, hi⟩) ≠ "" :=
      hne (docs.get ⟨i, hi⟩) (docs.get_mem i hi)
    rw [hsheet, buildIndexFromSheet, buildIndexAux_get _ 2 [] _ hk, hids]
    have hlen : i < (docs.map entityIdCell).length := by simpa using hi
    have hget : (docs.map entityIdCell).get? i =
        some (entityIdCell (docs.get ⟨i, hi⟩)) := by
      rw [List.get?_map, List.get?_eq_get hi]
      rfl
    rw [findLastIdx_of_nodup (docs.map entityIdCell) _ i hnodup hlen hget]
    simp [Nat.add_comm]

/-- Three sample store documents with distinct ids. -/
def exDocs3 : List Doc :=
  [[("_id", JsValue.str "d1"), ("fullName", JsValue.str "A")],
   [("_id", JsValue.str "d2"), ("fullName", JsValue.str "B")],
   [("_id", JsValue.str "d3"), ("fullName", JsValue.str "C")]]

/-- Witness for C2: bootstrapping over three entities and an arbitrary
dirty prior state puts the first entity's id at row 2. -/
theorem claim_c2_witness :
    mapGet (bootstrap ⟨[["junk"]], [("stale", 9)]⟩ exDocs3).idToRow
      (entityIdCell [("_id", JsValue.str "d1"), ("fullName", JsValue.str "A")]) =
      some 2 := by
  have h := (claim_c2_bootstrap ⟨[["junk"]], [("stale", 9)]⟩ exDocs3
    (by decide) (by decide)).2.2.2.1 0 (by norm_num [exDocs3])
  exact h

theorem appendRowOp_eq (st : SyncState) (doc : Doc) :
    appendRowOp st doc =
      { sheet := st.sheet ++ [docToSheetRow doc]
      , idToRow := mapSet st.idToRow (jsToString (docGet doc "_id"))
          (st.sheet.length + 1) } := by
  simp only [appendRowOp]
  have hlen : (st.sheet ++ [docToSheetRow doc]).length = st.sheet.length + 1 := by
    simp
  rw [hlen, parse_appendResponseRange]
  simp

theorem truthyRow_some {o : Option Nat} {r : Nat} (h : o = some r) (hr : r ≠ 0) :
    truthyRow o = some r := by
  rw [h]
  simp [truthyRow, hr]

/-- Claim C1: the change-stream handler implements the specified dispatch
table.  An insert event appends exactly one new row holding the event's
full document and afterwards the Row Index maps the entity's id to the
appended row's number; an update or replace event whose id is absent from
the index (no truthy entry) falls back to exactly the append path rather
than failing; a delete event whose id is indexed blanks that row and
removes the id from the index; a delete event whose id is absent is a
no-op that changes neither the sheet nor the index — in particular a second
delete of the same entity changes nothing. -/
theorem claim_c1_dispatch (st : SyncState) (k : JsValue) (doc : Doc) :
    ((handleChange st ⟨.insert, k, doc⟩).sheet = st.sheet ++ [docToSheetRow doc] ∧
     mapGet (handleChange st ⟨.insert, k, doc⟩).idToRow
       (jsToString (docGet doc "_id")) = some (st.sheet.length + 1)) ∧
    (truthyRow (mapGet st.idToRow (jsToString k)) = none →
       handleChange st ⟨.update, k, doc⟩ = appendRowOp st doc ∧
       handleChange st ⟨.replace, k, doc⟩ = appendRowOp st doc) ∧
    (∀ r, mapGet st.idToRow (jsToString k) = some r → r ≠ 0 →
       (handleChange st ⟨.delete, k, doc⟩).sheet = st.sheet.set (r - 1) blankRow ∧
       mapGet (handleChange st ⟨.delete, k, doc⟩).idToRow (jsToString k) = none) ∧
    (mapGet st.idToRow (jsToString k) = none →
       handleChange st ⟨.delete, k, doc⟩ = st) ∧
    handleChange (handleChange st ⟨.delete, k, doc⟩) ⟨.delete, k, doc⟩ =
      handleChange st ⟨.delete, k, doc⟩ := by
  have hins : handleChange st ⟨.insert, k, doc⟩ = appendRowOp st doc := rfl
  refine ⟨?_, ?_, ?_, ?_, ?_⟩
  · rw [hins, appendRowOp_eq]
    exact ⟨rfl, mapGet_mapSet_self _ _ _⟩
  · intro ht
    have hu : handleChange st ⟨.update, k, doc⟩ =
        handleUpsert st (jsToString k) doc := rfl
    have hrp : handleChange st ⟨.replace, k, doc⟩ =
        handleUpsert st (jsToString k) doc := rfl
    rw [hu, hrp]
    unfold handleUpsert
    rw [ht]
    exact ⟨rfl, rfl⟩
  · intro r h hr
    have hd : handleChange st ⟨.delete, k, doc⟩ =
        { sheet := (clearRowOp st r).sheet
        , idToRow := mapDelete st.idToRow (jsToString k) } := by
      show (match truthyRow (mapGet st.idToRow (jsToString k)) with
        | some r =>
          ({ sheet := (clearRowOp st r).sheet
           , idToRow := mapDelete st.idToRow (jsToString k) } : SyncState)
        | none => st) = _
      rw [truthyRow_some h hr]
    rw [hd]
    exact ⟨rfl, mapGet_mapDelete_self _ _⟩
  · intro h
    show (match truthyRow (mapGet st.idToRow (jsToString k)) with
      | some r =>
        ({ sheet := (clearRowOp st r).sheet
         , idToRow := mapDelete st.idToRow (jsToString k) } : SyncState)
      | none => st) = st
    rw [h]
    rfl
  · match hm : mapGet st.idToRow (jsToString k) with
    | none =>
      have h1 : handleChange st ⟨.delete, k, doc⟩ = st := by
        show (match truthyRow (mapGet st.idToRow (jsToString k)) with
          | some r =>
            ({ sheet := (clearRowOp st r).sheet
             , idToRow := mapDelete st.idToRow (jsToString k) } : SyncState)
          | none => st) = st
        rw [hm]
        rfl
      rw [h1, h1]
    | some r =>
      by_cases hr : r = 0
      · have h1 : handleChange st ⟨.delete, k, doc⟩ = st := by
          show (match truthyRow (mapGet st.idToRow (jsToString k)) with
            | some r =>
              ({ sheet := (clearRowOp st r).sheet
               , idToRow := mapDelete st.idToRow (jsToString k) } : SyncState)
            | none => st) = st
          rw [hm]
          simp [truthyRow, hr]
        rw [h1, h1]
      · have h1 : handleChange st ⟨.delete, k, doc⟩ =
            { sheet := (clearRowOp st r).sheet
            , idToRow := mapDelete st.idToRow (jsToString k) } := by
          show (match truthyRow (mapGet st.idToRow (jsToString k)) with
            | some r =>
              ({ sheet := (clearRowOp st r).sheet
               , idToRow := mapDelete st.idToRow (jsToString k) } : SyncState)
            | none => st) = _
          rw [truthyRow_some hm hr]
        rw [h1]
        show (match truthyRow (mapGet (mapDelete st.idToRow (jsToString k)) (jsToString k)) with
          | some r =>
            ({ sheet := _
             , idToRow := mapDelete (mapDelete st.idToRow (jsToString k)) (jsToString k) } : SyncState)
          | none =>
            ({ sheet := (clearRowOp st r).sheet
             , idToRow := mapDelete st.idToRow (jsToString k) } : SyncState)) = _
        rw [mapGet_mapDelete_self]
        rfl

/-- A sample pipeline state: header plus one data row, with `x` at row 2. -/
def exState : SyncState :=
  { sheet := [["ID", "Name", "Email", "Phone", "Created At", "Grade", "Subject"],
              ["x", "Ann", "", "", "", "", ""]]
  , idToRow := [("x", 2)] }

/-- Witness for C1: a delete for an id absent from `exState`'s index is a
no-op. -/
theorem claim_c1_witness :
    handleChange exState ⟨OpType.delete, JsValue.str "zzz", exDoc⟩ = exState :=
  (claim_c1_dispatch exState (JsValue.str "zzz") exDoc).2.2.2.1 (by decide)

/-- Claim C7: for an indexed entity mapped to row `r` (a truthy row number
within the sheet), handling an update or replace event overwrites exactly
row `r`: the sheet keeps its length, row `r` now holds the encoded
document, every other row is untouched, and the entire Row Index is
unchanged — the id still maps to `r` and no other entry is added, removed
or modified.  The replace event takes the identical path. -/
theorem claim_c7_update_frame (st : SyncState) (k : JsValue) (doc : Doc)
    (r : Nat) (h : mapGet st.idToRow (jsToString k) = some r) (hr : r ≠ 0)
    (hlen : r ≤ st.sheet.length) :
    (handleChange st ⟨.update, k, doc⟩).sheet.length = st.sheet.length ∧
    (handleChange st ⟨.update, k, doc⟩).sheet.get? (r - 1) =
      some (docToSheetRow doc) ∧
    (∀ j, j ≠ r - 1 →
      (handleChange st ⟨.update, k, doc⟩).sheet.get? j = st.sheet.get? j) ∧
    (handleChange st ⟨.update, k, doc⟩).idToRow = st.idToRow ∧
    handleChange st ⟨.replace, k, doc⟩ = handleChange st ⟨.update, k, doc⟩ := by
  have hup : handleChange st ⟨.update, k, doc⟩ = updateRowOp st r doc := by
    show handleUpsert st (jsToString k) doc = _
    unfold handleUpsert
    rw [truthyRow_some h hr]
  have hrp : handleChange st ⟨.replace, k, doc⟩ =
      handleChange st ⟨.update, k, doc⟩ := rfl
  rw [hup]
  refine ⟨by simp [updateRowOp], ?_, ?_, rfl, hrp.trans hup⟩
  · show (st.sheet.set (r - 1) (docToSheetRow doc)).get? (r - 1) = _
    exact List.get?_set_eq_of_lt _ (by omega)
  · intro j hj
    show (st.sheet.set (r - 1) (docToSheetRow doc)).get? j = _
    exact List.get?_set_ne _ _ (fun hh => hj hh.symm)

/-- Witness for C7: updating the indexed entity `x` of `exState`. -/
theorem claim_c7_witness :
    (handleChange exState ⟨OpType.update, JsValue.str "x", exDoc⟩).idToRow =
      exState.idToRow :=
  (claim_c7_update_frame exState (JsValue.str "x") exDoc 2 (by decide)
    (by decide) (by decide)).2.2.2.1

/-- Claim C10: an insert event whose entity id is already present in the
Row Index still appends a brand-new row (the insert branch never consults
the index), and — the appended row number parsing succeeding, as it does
for the sink's well-formed response — overwrites the index entry so the id
now maps to the new row; the previously mapped row keeps its old contents
(neither cleared nor reused — the new row number differs from it), leaving
a stale duplicate row in the sink; no other index entry changes. -/
theorem claim_c10_insert_duplicate (st : SyncState) (k : JsValue) (doc : Doc)
    (rOld : Nat)
    (h : mapGet st.idToRow (jsToString (docGet doc "_id")) = some rOld) :
    (handleChange st ⟨.insert, k, doc⟩).sheet = st.sheet ++ [docToSheetRow doc] ∧
    mapGet (handleChange st ⟨.insert, k, doc⟩).idToRow
      (jsToString (docGet doc "_id")) = some (st.sheet.length + 1) ∧
    (1 ≤ rOld → rOld ≤ st.sheet.length →
       (handleChange st ⟨.insert, k, doc⟩).sheet.get? (rOld - 1) =
         st.sheet.get? (rOld - 1) ∧
       st.sheet.length + 1 ≠ rOld) ∧
    (∀ key, key ≠ jsToString (docGet doc "_id") →
       mapGet (handleChange st ⟨.insert, k, doc⟩).idToRow key =
         mapGet st.idToRow key) := by
  have hins : handleChange st ⟨.insert, k, doc⟩ = appendRowOp st doc := rfl
  rw [hins, appendRowOp_eq]
  refine ⟨rfl, mapGet_mapSet_self _ _ _, ?_, ?_⟩
  · intro h1 h2
    constructor
    · exact List.get?_append (by omega)
    · omega
  · intro key hkey
    exact mapGet_mapSet_ne _ _ _ _ hkey

/-- Witness for C10: inserting a second document with the already-indexed
id `x` into `exState` rebinds `x` to the new row 3. -/
theorem claim_c10_witness :
    mapGet (handleChange exState
      ⟨OpType.insert, JsValue.str "x",
        [("_id", JsValue.str "x"), ("fullName", JsValue.str "Ann2")]⟩).idToRow
      (jsToString (docGet [("_id", JsValue.str "x"),
        ("fullName", JsValue.str "Ann2")] "_id")) = some 3 :=
  (claim_c10_insert_duplicate exState (JsValue.str "x")
    [("_id", JsValue.str "x"), ("fullName", JsValue.str "Ann2")] 2
    (by decide)).2.1

theorem headIsPlus_plusAppend (s : String) : headIsPlus ("+" ++ s) = true := by
  have hdata : ("+" ++ s).data = '+' :: s.data := by simp
  simp [headIsPlus, hdata]

theorem headIsPlus_append_left (a b : String) (h : headIsPlus a = true) :
    headIsPlus (a ++ b) = true := by
  obtain ⟨da⟩ := a
  cases da with
  | nil => simp [headIsPlus] at h
  | cons c t =>
    have hdata : (String.mk (c :: t) ++ b).data = c :: (t ++ b.data) := by simp
    simp only [headIsPlus, hdata]
    simpa [headIsPlus] using h

/-- A record with no phone-number-like field at all. -/
def noPhoneRecord : Doc := [("fullName", JsValue.str "NoPhone")]

/-- The call the active `realtimeSync.js` emits for `noPhoneRecord`. -/
def mainNoPhoneCall : InteraktCall :=
  { viaRetry := false, phoneNumber := none, userId := none
  , traits := noPhoneRecord, tags := [JsValue.str "GoogleSheet"] }

/-- Counterexample to claim C8 as stated: the Profile Sink Adapter of the
active `realtimeSync.js` (`syncToInterakt`, lines 91–114) pushes a record
that has no phone number at all — a record that cannot have passed any
phone validation is still sent, the emitted create-or-update call contains
no phone number (normalized or otherwise) and no identifier, and the HTTP
call is not routed through the Retry Executor. -/
theorem claim_c8_counterexample :
    mainSyncToInterakt noPhoneRecord = some mainNoPhoneCall ∧
    mainNoPhoneCall.phoneNumber = none ∧
    mainNoPhoneCall.userId = none ∧
    mainNoPhoneCall.viaRetry = false := by decide

/-- Claim C8 as amended: in the `part_000` variant of the Profile Sink
Adapter, every record actually pushed carries a phone number that has been
normalized (non-digit characters stripped and a country code — default
`+91` — prefixed when the cleaned number lacks a leading `+`) and validated
(at least 10 digit characters), together with an identifier and the full
trait bag; records whose phone extraction yields nothing are not sent; but
the call is posted directly, not routed through the Retry Executor — and
the active `realtimeSync.js` variant sends only the trait bag, with no
phone field, no identifier and no retry routing. -/
theorem claim_c8_amended (r : Doc) (source fallbackId : String) :
    (∀ call, part000SyncToInterakt r source fallbackId = some call →
       call.viaRetry = false ∧
       (∃ p, call.phoneNumber = some p ∧ headIsPlus p = true ∧
         10 ≤ digitCount p) ∧
       call.userId.isSome = true ∧
       (∀ key, key ≠ "phoneNumber" → key ≠ "source" →
          docGet call.traits key = docGet r key)) ∧
    (jsTruthy (part000PhoneRaw r) = false →
       part000SyncToInterakt r source fallbackId = none) ∧
    (∀ call, mainSyncToInterakt r = some call →
       call.phoneNumber = none ∧ call.userId = none ∧ call.viaRetry = false ∧
       call.traits = r) := by
  refine ⟨?_, ?_, ?_⟩
  · intro call hcall
    simp only [part000SyncToInterakt] at hcall
    by_cases htr : jsTruthy (part000PhoneRaw r) = false
    · rw [if_pos htr] at hcall
      cases hcall
    · rw [if_neg htr] at hcall
      by_cases hplus : headIsPlus (cleanPhone (jsToString (part000PhoneRaw r))) = true
      · rw [if_pos hplus] at hcall
        by_cases hd : digitCount (cleanPhone (jsToString (part000PhoneRaw r))) < 10
        · simp only [hd, if_true] at hcall
          cases hcall
        · simp only [hd, if_false] at hcall
          have hc := Option.some.inj hcall
          subst hc
          refine ⟨rfl, ⟨cleanPhone (jsToString (part000PhoneRaw r)), rfl, hplus, by omega⟩,
            rfl, ?_⟩
          intro key h1 h2
          have h1s : ¬ ("phoneNumber" : String) = key := fun hh => h1 hh.symm
          have h2s : ¬ ("source" : String) = key := fun hh => h2 hh.symm
          simp [docGet, h1s, h2s]
      · rw [if_neg hplus] at hcall
        match hv : jsOr (docGet r "countryCode")
            (jsOr (docGet r "Country Code") (.str "+91")) with
        | .str cc =>
          rw [hv] at hcall
          simp only [] at hcall
          by_cases hd : digitCount ((if headIsPlus cc then cc
              else "+" ++ cc) ++ cleanPhone (jsToString (part000PhoneRaw r))) < 10
          · simp only [hd, if_true] at hcall
            cases hcall
          · simp only [hd, if_false] at hcall
            have hc := Option.some.inj hcall
            subst hc
            refine ⟨rfl, ?_, rfl, ?_⟩
            · refine ⟨_, rfl, ?_, by omega⟩
              apply headIsPlus_append_left
              by_cases hcc : headIsPlus cc = true
              · rw [if_pos hcc]; exact hcc
              · rw [if_neg hcc]; exact headIsPlus_plusAppend cc
            · intro key h1 h2
              have h1s : ¬ ("phoneNumber" : String) = key := fun hh => h1 hh.symm
              have h2s : ¬ ("source" : String) = key := fun hh => h2 hh.symm
              simp [docGet, h1s, h2s]
        | .null => rw [hv] at hcall; cases hcall
        | .undef => rw [hv] at hcall; cases hcall
        | .num m => rw [hv] at hcall; cases hcall
        | .bool b => rw [hv] at hcall; cases hcall
        | .date iso ds => rw [hv] at hcall; cases hcall
        | .obj ts js => rw [hv] at hcall; cases hcall
  · intro htr
    simp only [part000SyncToInterakt]
    rw [if_pos htr]
  · intro call hcall
    have hc := Option.some.inj hcall
    subst hc
    exact ⟨rfl, rfl, rfl, rfl⟩

/-- Witness for the amended C8: a record with no phone field is skipped by
the `part_000` adapter. -/
theorem claim_c8_witness :
    part000SyncToInterakt noPhoneRecord "GoogleSheet" "fid" = none :=
  (claim_c8_amended noPhoneRecord "GoogleSheet" "fid").2.1 (by decide)

/-- Counterexample to claim C9 as stated: in the `src/unnamed/part_001`
variant of the consumer the transport-level stream failure handlers do not
both schedule a pipeline restart — the error handler terminates the process
with `process.exit(1)`, and no close handler (hence no remediation for an
unsolicited close) is registered at all. -/
theorem claim_c9_counterexample :
    part001Handlers.onError = Remediation.exitProcess 1 ∧
    part001Handlers.onClose = none := by decide

/-- Claim C9 as amended: in `realtimeSync.js` the consumer registers
handlers for both transport-level terminal conditions — explicit stream
error and unsolicited close — and both schedule the same remediation, a
full pipeline restart (`setTimeout(startSync, 10000)`) after the same
fixed, non-exponential 10-second delay, never terminating the process; the
`part_001` variant instead exits the process (code 1) on a stream error
and registers no close handler. -/
theorem claim_c9_amended :
    watchChangesHandlers.onError = Remediation.scheduleRestart 10000 ∧
    watchChangesHandlers.onClose = some watchChangesHandlers.onError ∧
    (∀ code, watchChangesHandlers.onError ≠ Remediation.exitProcess code) ∧
    part001Handlers.onError = Remediation.exitProcess 1 ∧
    part001Handlers.onClose = none := by
  refine ⟨rfl, rfl, ?_, rfl, rfl⟩
  intro code
  simp [watchChangesHandlers]

/-- Witness for the amended C9: the main consumer's error handler is not a
process exit. -/
theorem claim_c9_witness :
    watchChangesHandlers.onError ≠ Remediation.exitProcess 1 :=
  claim_c9_amended.2.2.1 1
